import Mathlib

namespace Objdump

/-!
Verification of the objdump-style disassembly engine (llvm-objdump.cpp)
against its natural-language specification.

The development shallow-embeds the relevant parts of the tool:
the zero/data skipping policy, the per-section symbol tables, the
dummy-symbol insertion, the branch-target resolution and annotation,
the hidden-relocation classification, the relocation-interleaving
loop, the instruction loop of the disassembly driver, and the
live-variable column renderer.  Byte buffers are `List Nat` (each
element a byte value), addresses and sizes are `Nat` (the C++ code
uses `uint64_t`/`size_t`; no computation below ever underflows or
overflows in the ranges the driver establishes, and hypotheses record
the order facts the driver guarantees where a C++ unsigned subtraction
appears).
-/

/-! ### Zero/data skipping policy (`countSkippableZeroBytes`) -/

/-- Number of leading zero bytes of a buffer: the `while (N < Buf.size()
&& !Buf[N]) ++N;` loop of `countSkippableZeroBytes`. -/
def leadingZeroBytes : List Nat → Nat
  | [] => 0
  | b :: rest => if b = 0 then leadingZeroBytes rest + 1 else 0

/-- Embedding of `countSkippableZeroBytes(ArrayRef<uint8_t> Buf)`:
count the leading zeroes `N`; return 0 unless `N >= 8`; otherwise
return `N & ~0x3` (clear the low two bits, i.e. `N - N % 4`). -/
def countSkippableZeroBytes (buf : List Nat) : Nat :=
  let n := leadingZeroBytes buf
  if n < 8 then 0 else n - n % 4

/-- The driver's skip window (`MaxOffset` in `disassembleObject`):
`End - Index`, clamped to `RelCur->getOffset() - Index` when a
relocation is pending. -/
def skipMaxOffset (endIdx index : Nat) (relCur : Option Nat) : Nat :=
  match relCur with
  | none => endIdx - index
  | some r => r - index

/-- The number of zero bytes the driver skips at `index`:
`countSkippableZeroBytes(Bytes.slice(Index, MaxOffset))`. -/
def driverSkipCount (bytes : List Nat) (endIdx index : Nat)
    (relCur : Option Nat) : Nat :=
  countSkippableZeroBytes ((bytes.drop index).take (skipMaxOffset endIdx index relCur))

/-! ### Symbol tables -/

/-- ELF symbol types used by the driver (`ELF::STT_*`). -/
inductive SymType where
  | func | object | common | notype
  deriving DecidableEq, Repr

/-- The `SymbolInfoTy` triples the driver stores in each per-section
symbol table: `{Addr, Name, Type}` (the XCOFF symbol-description
variant carries extra metadata not relevant to any claim). -/
structure SymbolInfo where
  addr : Nat
  name : String
  typ : SymType
  deriving DecidableEq, Repr

/-- Modelled from the spec: the comparison `llvm::stable_sort` uses on a
`SectionSymbolsTy` is `SymbolInfoTy`'s `operator<`, which is declared
outside this code; the spec states the sort key is the address alone,
ascending, with ties left to the stable sort's original order (not broken
by name). -/
def symAddrLE (a b : SymbolInfo) : Prop := a.addr ≤ b.addr

instance : DecidableRel symAddrLE := fun a b => Nat.decLe a.addr b.addr

instance : IsTotal SymbolInfo symAddrLE :=
  ⟨fun a b => Nat.le_total a.addr b.addr⟩

instance : IsTrans SymbolInfo symAddrLE :=
  ⟨fun _ _ _ h1 h2 => Nat.le_trans h1 h2⟩

/-- The `llvm::stable_sort(SecSyms.second)` step, as a stable sort
(insertion sort) by the spec-modelled key `symAddrLE`. -/
def sortSectionSymbols (l : List SymbolInfo) : List SymbolInfo :=
  List.insertionSort symAddrLE l

/-! ### Dummy symbol insertion -/

/-- Embedding of `createDummySymbolInfo(Obj, Addr, Name, Type)` (non-XCOFF
branch; the XCOFF symbol-description branch stores the same address and
name, with XCOFF metadata in place of the ELF type). -/
def createDummySymbolInfo (addr : Nat) (name : String) (typ : SymType) :
    SymbolInfo :=
  ⟨addr, name, typ⟩

/-- The dummy-insertion step of `disassembleObject`:
`if (Symbols.empty() || Symbols[0].Addr != 0) Symbols.insert(Symbols.begin(),
createDummySymbolInfo(Obj, SectionAddr, SectionName, Section.isText() ?
ELF::STT_FUNC : ELF::STT_OBJECT))`.  Symbol addresses here are virtual
addresses, and the dummy's name is the section's name. -/
def insertDummyIfNeeded (sectionAddr : Nat) (sectionName : String)
    (isText : Bool) (symbols : List SymbolInfo) : List SymbolInfo :=
  match symbols with
  | [] =>
    [createDummySymbolInfo sectionAddr sectionName
      (if isText then .func else .object)]
  | s :: rest =>
    if s.addr ≠ 0 then
      createDummySymbolInfo sectionAddr sectionName
        (if isText then .func else .object) :: s :: rest
    else s :: rest

/-! ### Branch target annotation -/

/-- One hexadecimal digit, lowercase (as `Twine::utohexstr` renders). -/
def hexDigitChar (n : Nat) : Char :=
  if n < 10 then Char.ofNat (48 + n) else Char.ofNat (87 + n)

/-- Accumulate the hex digits of `n` (most significant first). -/
def toHexAux : Nat → List Char → List Char
  | 0, acc => acc
  | n + 1, acc =>
    toHexAux ((n + 1) / 16) (hexDigitChar ((n + 1) % 16) :: acc)
decreasing_by exact Nat.div_lt_self (Nat.succ_pos n) (by omega)

/-- Embedding of `Twine::utohexstr`: lowercase hex, no leading zeroes. -/
def utohexstr (n : Nat) : String :=
  if n = 0 then "0" else String.mk (toHexAux n [])

/-- Lookup in the driver's `AllLabels` map of local jump labels
(address to label text). -/
def lookupLabel (labels : List (Nat × String)) (target : Nat) :
    Option String :=
  (labels.find? (fun p => p.1 == target)).map (fun p => p.2)

/-- Embedding of the target-annotation printing in `disassembleObject`:
with a resolved symbol, `Disp = Target - TargetSym->Addr`; print `<name>`
when `Disp` is zero, `<name+0x<hex disp>>` when no local label exists at
the target, and `<label>` otherwise; with no resolved symbol, print
`<label>` when one exists at the target and nothing otherwise.  (The
space the code emits before `<` is not modelled; symbol resolution
guarantees `TargetSym->Addr <= Target`, so the `uint64_t` subtraction
is the `Nat` subtraction.) -/
def symbolDisplayText (targetSym : Option SymbolInfo)
    (labels : List (Nat × String)) (target : Nat) : Option String :=
  match targetSym with
  | some sym =>
    let disp := target - sym.addr
    let body :=
      if disp = 0 then sym.name
      else
        match lookupLabel labels target with
        | none => sym.name ++ "+0x" ++ utohexstr disp
        | some lbl => lbl
    some ("<" ++ body ++ ">")
  | none =>
    match lookupLabel labels target with
    | some lbl => some ("<" ++ lbl ++ ">")
    | none => none

/-! ### Symbol resolution across sections -/

/-- Embedding of the candidate-section walk in `disassembleObject`: the
`while (It != SectionAddresses.begin())` loop runs backwards from the
`partition_point`, i.e. forwards over the reversed prefix of sections
based at or below the target.  `TargetSecAddr` starts as the sentinel 0,
is set from the first section visited, and the walk stops at the first
section whose base address differs, collecting each visited section. -/
def collectSameBase (targetSecAddr : Nat) : List (Nat × Nat) → List Nat
  | [] => []
  | p :: rest =>
    let tsa := if targetSecAddr = 0 then p.1 else targetSecAddr
    if p.1 ≠ tsa then []
    else p.2 :: collectSameBase tsa rest

/-- The sections whose symbol tables are candidates for resolving
`target` in a non-relocatable object.  `SectionAddresses` is the sorted
(base address, section) list; the `partition_point` on `O.first <= Target`
identifies the prefix based at or below the target. -/
def candidateSections (sectionAddresses : List (Nat × Nat))
    (target : Nat) : List Nat :=
  collectSameBase 0
    ((sectionAddresses.takeWhile (fun p => p.1 ≤ target)).reverse)

/-- The symbol tables `disassembleObject` searches, in order: for a
relocatable object only the current section's table; otherwise the tables
of the candidate sections; in both cases followed by the absolute-symbol
table. -/
def candidateSymbolTables (isRelocatable : Bool)
    (sectionAddresses : List (Nat × Nat))
    (allSymbols : Nat → List SymbolInfo)
    (currentSectionSyms absoluteSymbols : List SymbolInfo)
    (target : Nat) : List (List SymbolInfo) :=
  (if isRelocatable then [currentSectionSyms]
   else (candidateSections sectionAddresses target).map allSymbols) ++
    [absoluteSymbols]

/-- The per-table search: `partition_point` on `O.Addr <= Target` and a
step back, i.e. the last element of the prefix of symbols based at or
below the target. -/
def findLastLE (table : List SymbolInfo) (target : Nat) :
    Option SymbolInfo :=
  (table.takeWhile (fun s => s.addr ≤ target)).getLast?

/-- The `for (const SectionSymbolsTy *TargetSymbols : TargetSectionSymbols)`
loop: the first table yielding a symbol wins. -/
def resolveTargetSym (tables : List (List SymbolInfo)) (target : Nat) :
    Option SymbolInfo :=
  match tables with
  | [] => none
  | t :: rest =>
    match findLastLE t target with
    | some s => some s
    | none => resolveTargetSym rest target

/-! ### Hidden relocations and relocation interleaving -/

/-- The Mach-O architecture cases `getHidden` distinguishes.  `x86`,
`arm` and `ppc` use the generic relocations; `x86_64` has the
SUBTRACTOR/UNSIGNED pairing; everything else is never hidden. -/
inductive MachOArchKind where
  | x86 | arm | ppc | x86_64 | otherArch
  deriving DecidableEq, Repr

/-- Relocation type constant `MachO::GENERIC_RELOC_PAIR` (value from the
Mach-O format headers; the claims depend only on the constants being
the ones compared). -/
def GENERIC_RELOC_PAIR : Nat := 1

/-- Relocation type constant `MachO::X86_64_RELOC_UNSIGNED`. -/
def X86_64_RELOC_UNSIGNED : Nat := 0

/-- Relocation type constant `MachO::X86_64_RELOC_SUBTRACTOR`. -/
def X86_64_RELOC_SUBTRACTOR : Nat := 5

/-- Embedding of `getHidden(RelocationRef RelRef)`: non-Mach-O objects are
never hidden; on generic-relocation architectures a `GENERIC_RELOC_PAIR`
is always hidden; on x86_64 an `X86_64_RELOC_UNSIGNED` is hidden exactly
when it is not the first relocation and the previous relocation in the
section (`Rel.d.a - 1`) is an `X86_64_RELOC_SUBTRACTOR`.  `relTypes` is
the per-section relocation type list and `i` the relocation's index. -/
def getHidden (isMachO : Bool) (arch : MachOArchKind) (relTypes : List Nat)
    (i : Nat) : Bool :=
  if !isMachO then false
  else
    let type := relTypes.getD i 0
    match arch with
    | .x86 | .arm | .ppc => type == GENERIC_RELOC_PAIR
    | .x86_64 =>
      if type == X86_64_RELOC_UNSIGNED && decide (0 < i) then
        relTypes.getD (i - 1) 0 == X86_64_RELOC_SUBTRACTOR
      else false
    | .otherArch => false

/-- A relocation entry as the driver's interleaving loop consumes it: its
offset within the section and its (precomputed) `getHidden` flag. -/
structure RelocEntry where
  offset : Nat
  hidden : Bool
  deriving DecidableEq, Repr

/-- Embedding of the relocation-printing `while (RelCur != RelEnd)` loop
run after one decoded unit: `bound` is `Index + Size`; hidden relocations
(and ones below `--start-address`) are consumed without output; the loop
stops at the first remaining relocation at or past `bound`; the rest are
printed in order.  Returns the printed relocations and the remaining
cursor. -/
def printRelocsLoop (sectionAddr startAddress bound : Nat) :
    List RelocEntry → List RelocEntry × List RelocEntry
  | [] => ([], [])
  | r :: rest =>
    if r.hidden || decide (sectionAddr + r.offset < startAddress) then
      printRelocsLoop sectionAddr startAddress bound rest
    else if bound ≤ r.offset then ([], r :: rest)
    else
      let res := printRelocsLoop sectionAddr startAddress bound rest
      (r :: res.1, res.2)

/-! ### The disassembly driver's instruction loop -/

/-- One line of driver output, reduced to the shape the claims speak
about: a zero-skip ellipsis, a local label, an ARM data word, a decoded
instruction line, the decode-failure placeholder (`<unknown>` plus any
decoder diagnostic comment), or a relocation line. -/
inductive OutLine where
  | skippedZeroes
  | localLabelLine (s : String)
  | dataLine (addr : Nat)
  | instLine (addr : Nat)
  | unknownLine (addr : Nat)
  | relocLine (offset : Nat)
  deriving DecidableEq, Repr

/-- The number of bytes `dumpARMELFData` consumes: a word when 4 bytes
remain before `End`, a short when 2 do, a byte otherwise. -/
def dumpARMELFDataSize (endIdx index : Nat) : Nat :=
  if index + 4 ≤ endIdx then 4 else if index + 2 ≤ endIdx then 2 else 1

/-- The state the instruction loop of `disassembleObject` reads: the
section contents and base address, the `--start-address` bound, the
symbol range's `End`, the `--disassemble-zeroes` flag, the local jump
labels, the opaque decoder (`getInstruction`: did it produce an
instruction, and the size it reported), and whether the mapping symbols
put an index in an ARM ELF data region. -/
structure DriverCtx where
  bytes : List Nat
  sectionAddr : Nat
  startAddress : Nat
  endIdx : Nat
  disassembleZeroes : Bool
  labels : List (Nat × String)
  decode : Nat → Bool × Nat
  isDataMapping : Nat → Bool

/-- One iteration of the `while (Index < End)` instruction loop: the ARM
ELF data path dumps a word/short/byte; otherwise a skippable zero run
(clamped by the pending relocation) prints an ellipsis and advances
without printing relocations (`continue`); otherwise any local label is
printed, one unit is decoded (a failure prints the placeholder; `Size`
is forced to at least 1), and the pending relocations before
`Index + Size` are interleaved.  Returns the lines printed, the next
`Index`, and the remaining relocation cursor. -/
def driverStep (c : DriverCtx) (index : Nat) (rels : List RelocEntry) :
    List OutLine × Nat × List RelocEntry :=
  if c.isDataMapping index then
    let size := dumpARMELFDataSize c.endIdx index
    let pr := printRelocsLoop c.sectionAddr c.startAddress (index + size) rels
    (OutLine.dataLine (c.sectionAddr + index) ::
      pr.1.map (fun r => OutLine.relocLine r.offset),
     index + size, pr.2)
  else
    let n := if c.disassembleZeroes then 0
      else driverSkipCount c.bytes c.endIdx index
        ((rels.head?).map (fun r => r.offset))
    if n ≠ 0 then ([OutLine.skippedZeroes], index + n, rels)
    else
      let labelLines := match lookupLabel c.labels (c.sectionAddr + index) with
        | some l => [OutLine.localLabelLine l]
        | none => []
      let d := c.decode index
      let size := max d.2 1
      let instL := if d.1 then OutLine.instLine (c.sectionAddr + index)
        else OutLine.unknownLine (c.sectionAddr + index)
      let pr := printRelocsLoop c.sectionAddr c.startAddress (index + size) rels
      (labelLines ++ instL :: pr.1.map (fun r => OutLine.relocLine r.offset),
       index + size, pr.2)

/-- The `while (Index < End)` loop, collecting all printed lines. -/
def driverRun (c : DriverCtx) (index : Nat) (rels : List RelocEntry) :
    List OutLine :=
  if h : index < c.endIdx then
    (driverStep c index rels).1 ++
      driverRun c (driverStep c index rels).2.1 (driverStep c index rels).2.2
  else []
termination_by c.endIdx - index
decreasing_by
  have hstep : index < (driverStep c index rels).2.1 := by
    simp only [driverStep, dumpARMELFDataSize]
    repeat' split
    all_goals simp
    all_goals omega
  omega

/-- The iteration count of the `while (Index < End)` loop. -/
def driverIters (c : DriverCtx) (index : Nat) (rels : List RelocEntry) :
    Nat :=
  if h : index < c.endIdx then
    driverIters c (driverStep c index rels).2.1 (driverStep c index rels).2.2
      + 1
  else 0
termination_by c.endIdx - index
decreasing_by
  have hstep : index < (driverStep c index rels).2.1 := by
    simp only [driverStep, dumpARMELFDataSize]
    repeat' split
    all_goals simp
    all_goals omega
  omega

/-- A 4-byte symbol range whose bytes never decode: the decoder fails at
every position, reporting size `failSize`. -/
def failingCtx (failSize : Nat) : DriverCtx :=
  ⟨[1, 1, 1, 1], 0, 0, 4, false, [], fun _ => (false, failSize),
    fun _ => false⟩

/-! ### Live-variable column renderer (`LiveVariablePrinter`) -/

/-- An `object::SectionedAddress`. -/
structure SectionedAddress where
  address : Nat
  sectionIndex : Nat
  deriving DecidableEq, Repr

/-- A `LiveVariable`: its source name and the PC range for which its
location expression is valid (`LocExpr.Range`: low PC, high PC, section
index), when it has one. -/
structure LiveVariable where
  varName : String
  range : Option (Nat × Nat × Nat)
  deriving DecidableEq, Repr

/-- Embedding of `LiveVariable::liveAtAddress`: false with no range;
otherwise the section indices match, `LowPC <= Addr` and `HighPC > Addr`. -/
def liveAtAddress (lv : LiveVariable) (addr : SectionedAddress) : Bool :=
  match lv.range with
  | none => false
  | some (lo, hi, si) =>
    si == addr.sectionIndex && decide (lo ≤ addr.address) &&
      decide (addr.address < hi)

/-- A rendering `Column`: `varIdx = none` models `NullVarIdx`; a column
is active iff it holds a variable index. -/
structure Column where
  varIdx : Option Nat
  liveIn : Bool
  liveOut : Bool
  mustDrawLabel : Bool
  deriving DecidableEq, Repr

/-- A default-constructed `Column`. -/
def defaultColumn : Column := ⟨none, false, false, false⟩

/-- The renderer's state: the immutable `LiveVariables` list and the
growable `ActiveCols` array. -/
structure LVPState where
  liveVariables : List LiveVariable
  activeCols : List Column
  deriving DecidableEq, Repr

/-- The scan loop of `LiveVariablePrinter::findFreeColumn`: the first
column index whose slot is inactive. -/
def findFirstFree : List Column → Option Nat
  | [] => none
  | c :: rest =>
    if c.varIdx = none then some 0
    else (findFirstFree rest).map (· + 1)

/-- Embedding of `LiveVariablePrinter::findFreeColumn`: return the first
inactive column; with every column occupied, grow the array and return
the first fresh slot (`OldSize`).  The growth amount is modelled from the
spec — "grow the column array by doubling, minimum 1" — because
`IndexedMap::grow` is declared outside this code. -/
def findFreeColumn (cols : List Column) : List Column × Nat :=
  match findFirstFree cols with
  | some i => (cols, i)
  | none =>
    (cols ++ List.replicate (max (2 * cols.length) 1 - cols.length)
      defaultColumn, cols.length)

/-- Pass 1 of `LiveVariablePrinter::update` on one column: an active
column recomputes `LiveIn`/`LiveOut` from its occupant and is deactivated
when neither holds; an inactive column is untouched. -/
def pass1Col (lvs : List LiveVariable) (thisAddr nextAddr : SectionedAddress)
    (c : Column) : Column :=
  match c.varIdx with
  | none => c
  | some v =>
    let lv := lvs.getD v ⟨"", none⟩
    let li := liveAtAddress lv thisAddr
    let lo := liveAtAddress lv nextAddr
    ⟨if !li && !lo then none else some v, li, lo, c.mustDrawLabel⟩

/-- The `CheckedVarIdxs` set pass 1 collects: every occupant of an active
column, recorded before the liveness check. -/
def checkedVarIdxs (cols : List Column) : List Nat :=
  cols.filterMap (fun c => c.varIdx)

/-- Pass 2 of `LiveVariablePrinter::update`: every variable index not
checked in pass 1 that is live at either boundary is assigned a free
column (marking `MustDrawLabel`). -/
def pass2Assign (lvs : List LiveVariable)
    (thisAddr nextAddr : SectionedAddress) (checked : List Nat) :
    List Nat → List Column → List Column
  | [], cols => cols
  | v :: vs, cols =>
    if checked.contains v then
      pass2Assign lvs thisAddr nextAddr checked vs cols
    else
      let lv := lvs.getD v ⟨"", none⟩
      let li := liveAtAddress lv thisAddr
      let lo := liveAtAddress lv nextAddr
      if !li && !lo then pass2Assign lvs thisAddr nextAddr checked vs cols
      else
        let fc := findFreeColumn cols
        pass2Assign lvs thisAddr nextAddr checked vs
          (fc.1.set fc.2 ⟨some v, li, lo, true⟩)

/-- Embedding of `LiveVariablePrinter::update(ThisAddr, NextAddr,
IncludeDefinedVars)`: pass 1 over the active columns, then (only when
`IncludeDefinedVars`) pass 2 over all variable indices. -/
def update (st : LVPState) (thisAddr nextAddr : SectionedAddress)
    (includeDefinedVars : Bool) : LVPState :=
  let cols1 := st.activeCols.map (pass1Col st.liveVariables thisAddr nextAddr)
  let checked := checkedVarIdxs st.activeCols
  if includeDefinedVars then
    ⟨st.liveVariables,
      pass2Assign st.liveVariables thisAddr nextAddr checked
        (List.range st.liveVariables.length) cols1⟩
  else ⟨st.liveVariables, cols1⟩

/-- A whole sequence of `update` calls, each a triple
`(ThisAddr, NextAddr, IncludeDefinedVars)`. -/
def applyUpdates (st : LVPState)
    (steps : List (SectionedAddress × SectionedAddress × Bool)) : LVPState :=
  steps.foldl (fun s p => update s p.1 p.2.1 p.2.2) st

/-! ### Theorems -/

theorem leadingZeroBytes_le_length (buf : List Nat) :
    leadingZeroBytes buf ≤ buf.length := by
  induction buf with
  | nil => simp [leadingZeroBytes]
  | cons b rest ih =>
    simp only [leadingZeroBytes, List.length_cons]
    split
    · omega
    · omega

theorem countSkippableZeroBytes_le (buf : List Nat) :
    countSkippableZeroBytes buf ≤ leadingZeroBytes buf := by
  simp only [countSkippableZeroBytes]
  split
  · omega
  · omega

theorem countSkippableZeroBytes_le_length (buf : List Nat) :
    countSkippableZeroBytes buf ≤ buf.length :=
  le_trans (countSkippableZeroBytes_le buf) (leadingZeroBytes_le_length buf)

/-- C1 counterexample: the claim says `countSkippableZeroBytes` returns 16
for a 20-byte all-zero buffer, but the code computes `20 & ~0x3 = 20`. -/
theorem claim1_counterexample_twenty_zeroes :
    countSkippableZeroBytes (List.replicate 20 0) = 20 ∧
    ¬ countSkippableZeroBytes (List.replicate 20 0) = 16 := by
  decide

/-- C1 (amended): `countSkippableZeroBytes` returns 0 for any buffer with
fewer than 8 leading zero bytes; for a 20-byte all-zero buffer it returns
20; and in the driver, for a run of zero bytes clamped by a pending
relocation at offset 10 from the current index (a 20-byte zero buffer
truncated to 10 bytes), it returns 8. -/
theorem claim1_countSkippableZeroBytes_values (buf : List Nat)
    (h : leadingZeroBytes buf < 8) :
    countSkippableZeroBytes buf = 0 ∧
    countSkippableZeroBytes (List.replicate 20 0) = 20 ∧
    driverSkipCount (List.replicate 20 0) 20 0 (some 10) = 8 := by
  refine ⟨?_, by decide, by decide⟩
  simp only [countSkippableZeroBytes]
  rw [if_pos h]

/-- Witness for C1 at the concrete buffer `[1]`. -/
theorem claim1_countSkippableZeroBytes_values_witness :
    countSkippableZeroBytes [1] = 0 ∧
    countSkippableZeroBytes (List.replicate 20 0) = 20 ∧
    driverSkipCount (List.replicate 20 0) 20 0 (some 10) = 8 :=
  claim1_countSkippableZeroBytes_values [1] (by decide)

/-- C7: `countSkippableZeroBytes` returns 0 unless the buffer has at least
8 leading zero bytes, and otherwise returns the largest multiple of 4 not
exceeding the length of the leading zero run; and in the driver, the buffer
passed to it is clamped to end at the next pending relocation's offset, so
the skipped region `[index, index + skip)` never extends past that offset
(hence no displayed relocation offset falls strictly inside it). -/
theorem claim7_skip_policy (buf : List Nat) (bytes : List Nat)
    (endIdx index r : Nat) (h : index ≤ r) :
    (leadingZeroBytes buf < 8 → countSkippableZeroBytes buf = 0) ∧
    (8 ≤ leadingZeroBytes buf →
      4 ∣ countSkippableZeroBytes buf ∧
      countSkippableZeroBytes buf ≤ leadingZeroBytes buf ∧
      (∀ m, 4 ∣ m → m ≤ leadingZeroBytes buf →
        m ≤ countSkippableZeroBytes buf)) ∧
    index + driverSkipCount bytes endIdx index (some r) ≤ r := by
  refine ⟨?_, ?_, ?_⟩
  · intro hlt
    simp only [countSkippableZeroBytes]
    rw [if_pos hlt]
  · intro hge
    refine ⟨?_, countSkippableZeroBytes_le buf, ?_⟩
    · simp only [countSkippableZeroBytes]
      rw [if_neg (by omega)]
      omega
    · intro m hdvd hle
      simp only [countSkippableZeroBytes]
      rw [if_neg (by omega)]
      omega
  · have hlen : driverSkipCount bytes endIdx index (some r) ≤ r - index := by
      have h1 := countSkippableZeroBytes_le_length
        ((bytes.drop index).take (skipMaxOffset endIdx index (some r)))
      have h2 : ((bytes.drop index).take (skipMaxOffset endIdx index (some r))).length ≤
          skipMaxOffset endIdx index (some r) := by
        simp [List.length_take]
      simp only [driverSkipCount] at *
      simp only [skipMaxOffset] at *
      omega
    omega

/-- Witness for C7 at concrete inputs. -/
theorem claim7_skip_policy_witness :
    (leadingZeroBytes (List.replicate 9 0) < 8 →
      countSkippableZeroBytes (List.replicate 9 0) = 0) ∧
    (8 ≤ leadingZeroBytes (List.replicate 9 0) →
      4 ∣ countSkippableZeroBytes (List.replicate 9 0) ∧
      countSkippableZeroBytes (List.replicate 9 0) ≤
        leadingZeroBytes (List.replicate 9 0) ∧
      (∀ m, 4 ∣ m → m ≤ leadingZeroBytes (List.replicate 9 0) →
        m ≤ countSkippableZeroBytes (List.replicate 9 0))) ∧
    2 + driverSkipCount (List.replicate 16 0) 16 2 (some 9) ≤ 9 :=
  claim7_skip_policy (List.replicate 9 0) (List.replicate 16 0) 16 2 9 (by decide)

theorem sortSectionSymbols_sorted (l : List SymbolInfo) :
    List.Sorted symAddrLE (sortSectionSymbols l) :=
  List.sorted_insertionSort symAddrLE l

theorem sortSectionSymbols_stable (l : List SymbolInfo) (a : Nat) :
    (sortSectionSymbols l).filter (fun s => s.addr == a) =
      l.filter (fun s => s.addr == a) := by
  have hpair : (l.filter (fun s => s.addr == a)).Pairwise symAddrLE := by
    apply List.pairwise_of_forall_mem_list
    intro x hx y hy
    have hxa := (List.mem_filter.mp hx).2
    have hya := (List.mem_filter.mp hy).2
    simp only [beq_iff_eq] at hxa hya
    show x.addr <= y.addr
    omega
  have hsub : List.Sublist (l.filter (fun s => s.addr == a)) (sortSectionSymbols l) :=
    List.sublist_insertionSort hpair (List.filter_sublist l)
  have hidem : (l.filter (fun s => s.addr == a)).filter (fun s => s.addr == a) =
      l.filter (fun s => s.addr == a) :=
    List.filter_eq_self.mpr (fun x hx => (List.mem_filter.mp hx).2)
  have hsub2 : List.Sublist (l.filter (fun s => s.addr == a))
      ((sortSectionSymbols l).filter (fun s => s.addr == a)) :=
    hidem ▸ hsub.filter (fun s => s.addr == a)
  have hlen : ((sortSectionSymbols l).filter (fun s => s.addr == a)).length =
      (l.filter (fun s => s.addr == a)).length :=
    ((List.perm_insertionSort symAddrLE l).filter _).length_eq
  exact (hsub2.eq_of_length hlen.symm).symm

/-- C2: after the per-section symbol tables are sorted, symbols are
ordered by address ascending, two symbols with the same address keep
their original discovery order (ties are not broken by name), and the
discovery order `[(0x10,"b"), (0x10,"a"), (0x20,"c")]` sorts to itself. -/
theorem claim2_symbol_sort_stable (l : List SymbolInfo) (a : Nat) :
    List.Sorted symAddrLE (sortSectionSymbols l) ∧
    (sortSectionSymbols l).filter (fun s => s.addr == a) =
      l.filter (fun s => s.addr == a) ∧
    sortSectionSymbols
        [⟨0x10, "b", .func⟩, ⟨0x10, "a", .func⟩, ⟨0x20, "c", .func⟩] =
      [⟨0x10, "b", .func⟩, ⟨0x10, "a", .func⟩, ⟨0x20, "c", .func⟩] :=
  ⟨sortSectionSymbols_sorted l, sortSectionSymbols_stable l a, by decide⟩

/-- C3 counterexample: for a section based at 0x1000 whose first symbol
sits exactly at the base, the claim says the symbol list is unchanged, but
the code (which tests `Symbols[0].Addr != 0`, not the section base)
inserts a dummy; and the dummy inserted into an empty list carries the
section's name, not the empty string the claim describes. -/
theorem claim3_counterexample_dummy :
    insertDummyIfNeeded 4096 ".text" true [⟨4096, "f", .func⟩] ≠
      [⟨4096, "f", .func⟩] ∧
    insertDummyIfNeeded 4096 ".text" true [] = [⟨4096, ".text", .func⟩] ∧
    (".text" : String) ≠ "" := by
  refine ⟨by decide, rfl, by decide⟩

/-- C3 (amended): for every section the driver disassembles, a synthetic
dummy symbol bearing the section's name (function-typed for text sections,
object-typed otherwise) and the section's base address is inserted at the
front of the section's symbol list exactly when the list is empty or its
first symbol's address is nonzero; otherwise the symbol list is unchanged.
(Addresses are virtual addresses, so for a section based at a nonzero
address this inserts the dummy even when the first symbol sits exactly at
the section base.) -/
theorem claim3_dummy_insertion (sectionAddr : Nat) (sectionName : String)
    (isText : Bool) (symbols : List SymbolInfo) :
    (symbols = [] →
      insertDummyIfNeeded sectionAddr sectionName isText symbols =
        [⟨sectionAddr, sectionName, if isText then .func else .object⟩]) ∧
    (∀ s rest, symbols = s :: rest → s.addr ≠ 0 →
      insertDummyIfNeeded sectionAddr sectionName isText symbols =
        ⟨sectionAddr, sectionName, if isText then .func else .object⟩ ::
          symbols) ∧
    (∀ s rest, symbols = s :: rest → s.addr = 0 →
      insertDummyIfNeeded sectionAddr sectionName isText symbols =
        symbols) := by
  refine ⟨?_, ?_, ?_⟩
  · intro h
    subst h
    rfl
  · intro s rest h hne
    subst h
    simp [insertDummyIfNeeded, createDummySymbolInfo, hne]
  · intro s rest h heq
    subst h
    simp [insertDummyIfNeeded, heq]

/-- Witness for C3 at concrete inputs. -/
theorem claim3_dummy_insertion_witness :
    (([⟨4096, "f", SymType.func⟩] : List SymbolInfo) = [] →
      insertDummyIfNeeded 4096 ".text" true [⟨4096, "f", SymType.func⟩] =
        [⟨4096, ".text", if true then .func else .object⟩]) ∧
    (∀ s rest, ([⟨4096, "f", SymType.func⟩] : List SymbolInfo) = s :: rest →
      s.addr ≠ 0 →
      insertDummyIfNeeded 4096 ".text" true [⟨4096, "f", SymType.func⟩] =
        ⟨4096, ".text", if true then .func else .object⟩ ::
          [⟨4096, "f", SymType.func⟩]) ∧
    (∀ s rest, ([⟨4096, "f", SymType.func⟩] : List SymbolInfo) = s :: rest →
      s.addr = 0 →
      insertDummyIfNeeded 4096 ".text" true [⟨4096, "f", SymType.func⟩] =
        [⟨4096, "f", SymType.func⟩]) :=
  claim3_dummy_insertion 4096 ".text" true [⟨4096, "f", SymType.func⟩]

/-- C5: the printed annotation is exactly `<name>` when the target equals
the resolved symbol's address; `<name+0x<hex disp>>` when the displacement
is positive and no local jump-label exists at the exact target; the local
label when a displacement exists but a label exists at the target; the
label alone when no symbol matched but a label exists; and nothing when
neither matches. -/
theorem claim5_target_display (sym : SymbolInfo)
    (labels : List (Nat × String)) (target : Nat) :
    (target = sym.addr →
      symbolDisplayText (some sym) labels target =
        some ("<" ++ sym.name ++ ">")) ∧
    (sym.addr < target → lookupLabel labels target = none →
      symbolDisplayText (some sym) labels target =
        some ("<" ++ (sym.name ++ "+0x" ++ utohexstr (target - sym.addr)) ++ ">")) ∧
    (sym.addr < target → ∀ lbl, lookupLabel labels target = some lbl →
      symbolDisplayText (some sym) labels target = some ("<" ++ lbl ++ ">")) ∧
    (∀ lbl, lookupLabel labels target = some lbl →
      symbolDisplayText none labels target = some ("<" ++ lbl ++ ">")) ∧
    (lookupLabel labels target = none →
      symbolDisplayText none labels target = none) := by
  refine ⟨?_, ?_, ?_, ?_, ?_⟩
  · intro heq
    simp [symbolDisplayText, heq]
  · intro hlt hnone
    have hdisp : target - sym.addr ≠ 0 := by omega
    simp [symbolDisplayText, hdisp, hnone]
  · intro hlt lbl hsome
    have hdisp : target - sym.addr ≠ 0 := by omega
    simp [symbolDisplayText, hdisp, hsome]
  · intro lbl hsome
    simp [symbolDisplayText, hsome]
  · intro hnone
    simp [symbolDisplayText, hnone]

/-- Witness for C5: a target 4 bytes past the symbol `f` at 0x20 with no
local labels renders as `f+0x4`; the exact target 0x20 renders as `f`. -/
theorem claim5_target_display_witness :
    ((0x24 : Nat) = 0x20 →
      symbolDisplayText (some ⟨0x20, "f", .func⟩) [] 0x24 =
        some ("<" ++ "f" ++ ">")) ∧
    ((0x20 : Nat) < 0x24 → lookupLabel [] 0x24 = none →
      symbolDisplayText (some ⟨0x20, "f", .func⟩) [] 0x24 =
        some ("<" ++ ("f" ++ "+0x" ++ utohexstr (0x24 - 0x20)) ++ ">")) ∧
    ((0x20 : Nat) < 0x24 → ∀ lbl, lookupLabel [] 0x24 = some lbl →
      symbolDisplayText (some ⟨0x20, "f", .func⟩) [] 0x24 =
        some ("<" ++ lbl ++ ">")) ∧
    (∀ lbl, lookupLabel [] 0x24 = some lbl →
      symbolDisplayText none [] 0x24 = some ("<" ++ lbl ++ ">")) ∧
    (lookupLabel [] 0x24 = none → symbolDisplayText none [] 0x24 = none) :=
  claim5_target_display ⟨0x20, "f", .func⟩ [] 0x24

theorem sections_takeWhile_eq_filter (sas : List (Nat × Nat)) (target : Nat)
    (hsort : sas.Pairwise (fun a b => a.1 ≤ b.1)) :
    sas.takeWhile (fun p => p.1 ≤ target) =
      sas.filter (fun p => p.1 ≤ target) := by
  induction sas with
  | nil => rfl
  | cons a l ih =>
    rcases List.pairwise_cons.mp hsort with ⟨ha, hl⟩
    by_cases hat : a.1 ≤ target
    · simp only [List.takeWhile_cons, List.filter_cons, decide_eq_true hat,
        if_pos trivial, cond_true, ih hl]
    · simp only [List.takeWhile_cons, List.filter_cons]
      rw [decide_eq_false hat]
      simp only [cond_false, Bool.false_eq_true, if_false]
      symm
      rw [List.filter_eq_nil_iff]
      intro x hx
      have := ha x hx
      simp only [decide_eq_true_eq]
      omega

theorem symbols_takeWhile_eq_filter (table : List SymbolInfo) (target : Nat)
    (hsort : table.Pairwise symAddrLE) :
    table.takeWhile (fun s => s.addr ≤ target) =
      table.filter (fun s => s.addr ≤ target) := by
  induction table with
  | nil => rfl
  | cons a l ih =>
    rcases List.pairwise_cons.mp hsort with ⟨ha, hl⟩
    by_cases hat : a.addr ≤ target
    · simp only [List.takeWhile_cons, List.filter_cons, decide_eq_true hat,
        if_pos trivial, cond_true, ih hl]
    · simp only [List.takeWhile_cons, List.filter_cons]
      rw [decide_eq_false hat]
      simp only [cond_false, Bool.false_eq_true, if_false]
      symm
      rw [List.filter_eq_nil_iff]
      intro x hx
      have : x.addr ≥ a.addr := ha x hx
      simp only [decide_eq_true_eq]
      omega

theorem collectSameBase_pos (B : Nat) (hB : B ≠ 0) (l : List (Nat × Nat)) :
    collectSameBase B l =
      (l.takeWhile (fun p => p.1 == B)).map Prod.snd := by
  induction l with
  | nil => rfl
  | cons p rest ih =>
    simp only [collectSameBase, if_neg hB, List.takeWhile_cons]
    by_cases hp : p.1 = B
    · simp [hp, ih]
    · simp [hp]

theorem collectSameBase_zero_cons (p : Nat × Nat)
    (rest : List (Nat × Nat)) :
    collectSameBase 0 (p :: rest) = p.2 :: collectSameBase p.1 rest := by
  simp [collectSameBase]

theorem collectSameBase_zero (l : List (Nat × Nat))
    (h : ∀ p ∈ l, p.1 = 0) :
    collectSameBase 0 l =
      (l.takeWhile (fun p => p.1 == 0)).map Prod.snd := by
  induction l with
  | nil => rfl
  | cons p rest ih =>
    have hp : p.1 = 0 := h p (List.mem_cons_self p rest)
    rw [collectSameBase_zero_cons, hp,
      ih (fun q hq => h q (List.mem_cons_of_mem p hq))]
    simp [List.takeWhile_cons, hp]

theorem descending_takeWhile_eq_filter (B : Nat) (l : List (Nat × Nat))
    (hdesc : l.Pairwise (fun a b => b.1 ≤ a.1))
    (hle : ∀ p ∈ l, p.1 ≤ B) :
    l.takeWhile (fun p => p.1 == B) = l.filter (fun p => p.1 == B) := by
  induction l with
  | nil => rfl
  | cons a rest ih =>
    rcases List.pairwise_cons.mp hdesc with ⟨ha, hrest⟩
    by_cases hab : a.1 = B
    · simp only [List.takeWhile_cons, List.filter_cons, hab]
      simp only [beq_self_eq_true, cond_true, if_pos trivial]
      rw [ih hrest (fun q hq => hle q (List.mem_cons_of_mem a hq))]
    · have haB : a.1 < B := by
        have := hle a (List.mem_cons_self a rest)
        omega
      simp only [List.takeWhile_cons, List.filter_cons]
      rw [beq_eq_false_iff_ne.mpr hab]
      simp only [cond_false, Bool.false_eq_true, if_false]
      symm
      rw [List.filter_eq_nil_iff]
      intro x hx
      have hxa : x.1 ≤ a.1 := ha x hx
      simp only [beq_iff_eq]
      omega

theorem candidateSections_empty (sas : List (Nat × Nat)) (target : Nat)
    (hnone : ∀ p ∈ sas, ¬ p.1 ≤ target) :
    candidateSections sas target = [] := by
  unfold candidateSections
  have : sas.takeWhile (fun p => p.1 ≤ target) = [] := by
    cases sas with
    | nil => rfl
    | cons a l =>
      simp only [List.takeWhile_cons]
      rw [decide_eq_false (hnone a (List.mem_cons_self a l))]
      simp
  rw [this]
  rfl

theorem candidateSections_spec (sas : List (Nat × Nat)) (target : Nat)
    (hsort : sas.Pairwise (fun a b => a.1 ≤ b.1)) (B : Nat)
    (hmem : B ∈ sas.map Prod.fst) (hBle : B ≤ target)
    (hmax : ∀ p ∈ sas, p.1 ≤ target → p.1 ≤ B) :
    candidateSections sas target =
      ((sas.filter (fun p => p.1 == B)).reverse).map Prod.snd := by
  unfold candidateSections
  rw [sections_takeWhile_eq_filter sas target hsort]
  -- the reversed prefix: descending, every base at most `B`, head based
  -- exactly at `B`
  have hmemp : ∃ q ∈ sas, q.1 = B := by
    rcases List.mem_map.mp hmem with ⟨q, hq, hq2⟩
    exact ⟨q, hq, hq2⟩
  rcases hmemp with ⟨q, hq, hqB⟩
  have hq_in_filter : q ∈ sas.filter (fun p => p.1 ≤ target) := by
    rw [List.mem_filter]
    exact ⟨hq, by simp [hqB, hBle]⟩
  have hfil_le : ∀ p ∈ (sas.filter (fun p => p.1 ≤ target)).reverse,
      p.1 ≤ B := by
    intro p hp
    rw [List.mem_reverse] at hp
    rcases List.mem_filter.mp hp with ⟨hp1, hp2⟩
    exact hmax p hp1 (by simpa using hp2)
  have hdesc : ((sas.filter (fun p => p.1 ≤ target)).reverse).Pairwise
      (fun a b => b.1 ≤ a.1) := by
    rw [List.pairwise_reverse]
    exact (hsort.filter _)
  -- the reversed prefix is nonempty and its head is based at `B`
  cases hrev : (sas.filter (fun p => p.1 ≤ target)).reverse with
  | nil =>
    exfalso
    have : q ∈ (sas.filter (fun p => p.1 ≤ target)).reverse :=
      List.mem_reverse.mpr hq_in_filter
    rw [hrev] at this
    exact List.not_mem_nil q this
  | cons h0 t =>
    have hh0B : h0.1 = B := by
      have hle0 : h0.1 ≤ B := by
        apply hfil_le
        rw [hrev]
        exact List.mem_cons_self h0 t
      have hge0 : B ≤ h0.1 := by
        have hqmem : q ∈ h0 :: t := by
          rw [← hrev]
          exact List.mem_reverse.mpr hq_in_filter
        rcases List.mem_cons.mp hqmem with heq | hmem2
        · rw [heq] at hqB
          omega
        · rw [hrev] at hdesc
          rcases List.pairwise_cons.mp hdesc with ⟨hha, _⟩
          have := hha q hmem2
          omega
      omega
    rw [hrev] at hdesc hfil_le
    rcases List.pairwise_cons.mp hdesc with ⟨hha, htdesc⟩
    have hstep : collectSameBase 0 (h0 :: t) =
        h0.2 :: collectSameBase h0.1 t := by
      simp [collectSameBase]
    rw [hstep]
    have htail : collectSameBase h0.1 t =
        (t.takeWhile (fun p => p.1 == B)).map Prod.snd := by
      by_cases hB0 : B = 0
      · subst hB0
        rw [hh0B]
        have hall : ∀ p ∈ t, p.1 = 0 := by
          intro p hp
          have h1 := hha p hp
          omega
        exact collectSameBase_zero t hall
      · rw [hh0B]
        exact collectSameBase_pos B hB0 t
    rw [htail]
    have hmap : h0.2 :: (t.takeWhile (fun p => p.1 == B)).map Prod.snd =
        ((h0 :: t).takeWhile (fun p => p.1 == B)).map Prod.snd := by
      simp [List.takeWhile_cons, hh0B]
    rw [hmap]
    have htw : (h0 :: t).takeWhile (fun p => p.1 == B) =
        (h0 :: t).filter (fun p => p.1 == B) := by
      apply descending_takeWhile_eq_filter B (h0 :: t)
      · rw [List.pairwise_cons]
        exact ⟨hha, htdesc⟩
      · intro p hp
        rcases List.mem_cons.mp hp with heq | hmem3
        · subst heq
          omega
        · have := hha p hmem3
          omega
    rw [htw, ← hrev, List.filter_reverse, List.filter_filter]
    congr 2
    apply List.filter_congr
    intro p hp
    by_cases hpB : p.1 = B
    · simp [hpB, hBle]
    · simp [hpB]

theorem findLastLE_eq_last_le (table : List SymbolInfo) (target : Nat)
    (hsort : table.Pairwise symAddrLE) :
    findLastLE table target =
      (table.filter (fun s => s.addr ≤ target)).getLast? := by
  unfold findLastLE
  rw [symbols_takeWhile_eq_filter table target hsort]

/-- C6: when resolving a target address to a symbol, a relocatable object
searches only the current section's symbol table plus the absolute table;
a non-relocatable object searches the tables of the sections whose base
address is the largest base at most the target (possibly several sections
sharing that base, and no table when no section is based at or below the
target), then the absolute table; within a candidate table the
partition-point search yields the last symbol with address at most the
target, and the first table yielding a symbol wins. -/
theorem claim6_symbol_resolution (sas : List (Nat × Nat))
    (allSymbols : Nat → List SymbolInfo)
    (currentSyms absoluteSyms : List SymbolInfo) (target : Nat)
    (hsort : sas.Pairwise (fun a b => a.1 ≤ b.1)) :
    candidateSymbolTables true sas allSymbols currentSyms absoluteSyms
        target = [currentSyms, absoluteSyms] ∧
    candidateSymbolTables false sas allSymbols currentSyms absoluteSyms
        target =
      (candidateSections sas target).map allSymbols ++ [absoluteSyms] ∧
    ((∀ p ∈ sas, ¬ p.1 ≤ target) → candidateSections sas target = []) ∧
    (∀ B, B ∈ sas.map Prod.fst → B ≤ target →
      (∀ p ∈ sas, p.1 ≤ target → p.1 ≤ B) →
      candidateSections sas target =
        ((sas.filter (fun p => p.1 == B)).reverse).map Prod.snd) ∧
    (∀ table : List SymbolInfo, table.Pairwise symAddrLE →
      findLastLE table target =
        (table.filter (fun s => s.addr ≤ target)).getLast?) ∧
    (∀ (t : List SymbolInfo) (rest : List (List SymbolInfo)) s,
      findLastLE t target = some s →
      resolveTargetSym (t :: rest) target = some s) ∧
    (∀ (t : List SymbolInfo) (rest : List (List SymbolInfo)),
      findLastLE t target = none →
      resolveTargetSym (t :: rest) target = resolveTargetSym rest target) := by
  refine ⟨rfl, rfl, ?_, ?_, ?_, ?_, ?_⟩
  · exact candidateSections_empty sas target
  · intro B hmem hBle hmax
    exact candidateSections_spec sas target hsort B hmem hBle hmax
  · intro table htsort
    exact findLastLE_eq_last_le table target htsort
  · intro t rest s hfind
    simp [resolveTargetSym, hfind]
  · intro t rest hfind
    simp [resolveTargetSym, hfind]

/-- Witness for C6 at a concrete section layout: sections based at 4, 4
and 8, target 6 (so the two base-4 sections are the candidates). -/
theorem claim6_symbol_resolution_witness :
    candidateSymbolTables true [(4, 0), (4, 1), (8, 2)] (fun _ => [])
        [⟨1, "c", .func⟩] [⟨2, "a", .func⟩] 6 =
      [[⟨1, "c", .func⟩], [⟨2, "a", .func⟩]] ∧
    candidateSymbolTables false [(4, 0), (4, 1), (8, 2)] (fun _ => [])
        [⟨1, "c", .func⟩] [⟨2, "a", .func⟩] 6 =
      (candidateSections [(4, 0), (4, 1), (8, 2)] 6).map (fun _ => []) ++
        [[⟨2, "a", .func⟩]] ∧
    ((∀ p ∈ [(4, 0), (4, 1), (8, 2)], ¬ p.1 ≤ 6) →
      candidateSections [(4, 0), (4, 1), (8, 2)] 6 = []) ∧
    (∀ B, B ∈ [(4, 0), (4, 1), (8, 2)].map Prod.fst → B ≤ 6 →
      (∀ p ∈ [(4, 0), (4, 1), (8, 2)], p.1 ≤ 6 → p.1 ≤ B) →
      candidateSections [(4, 0), (4, 1), (8, 2)] 6 =
        (([(4, 0), (4, 1), (8, 2)].filter
          (fun p => p.1 == B)).reverse).map Prod.snd) ∧
    (∀ table : List SymbolInfo, table.Pairwise symAddrLE →
      findLastLE table 6 =
        (table.filter (fun s => s.addr ≤ 6)).getLast?) ∧
    (∀ (t : List SymbolInfo) (rest : List (List SymbolInfo)) s,
      findLastLE t 6 = some s →
      resolveTargetSym (t :: rest) 6 = some s) ∧
    (∀ (t : List SymbolInfo) (rest : List (List SymbolInfo)),
      findLastLE t 6 = none →
      resolveTargetSym (t :: rest) 6 = resolveTargetSym rest 6) :=
  claim6_symbol_resolution [(4, 0), (4, 1), (8, 2)] (fun _ => [])
    [⟨1, "c", .func⟩] [⟨2, "a", .func⟩] 6 (by decide)

theorem printRelocsLoop_printed (sectionAddr bound : Nat)
    (rels : List RelocEntry)
    (hsorted : rels.Pairwise (fun a b => a.offset ≤ b.offset)) :
    (printRelocsLoop sectionAddr 0 bound rels).1 =
      rels.filter (fun r => !r.hidden && decide (r.offset < bound)) := by
  induction rels with
  | nil => rfl
  | cons r rest ih =>
    rcases List.pairwise_cons.mp hsorted with ⟨hr, hrest⟩
    by_cases hh : r.hidden
    · simp only [printRelocsLoop, hh, Bool.true_or, if_pos trivial,
        List.filter_cons]
      simp only [hh, Bool.not_true, Bool.false_and, Bool.false_eq_true,
        if_false]
      exact ih hrest
    · have hno : (r.hidden || decide (sectionAddr + r.offset < 0)) = false := by
        simp [hh]
      by_cases hb : bound ≤ r.offset
      · simp only [printRelocsLoop, hno, Bool.false_eq_true, if_false,
          if_pos hb]
        symm
        rw [List.filter_eq_nil_iff]
        intro x hx
        rcases List.mem_cons.mp hx with heq | hmem
        · subst heq
          simp
          omega
        · have := hr x hmem
          simp
          omega
      · simp only [printRelocsLoop, hno, Bool.false_eq_true, if_false,
          if_neg hb, List.filter_cons]
        have : (!r.hidden && decide (r.offset < bound)) = true := by
          simp [hh]
          omega
        rw [this]
        simp only [if_pos trivial]
        rw [ih hrest]

/-- C10: after each decoded unit the driver prints, in offset order,
exactly the pending relocations whose offset precedes `Index + Size`,
except the hidden ones, which are consumed without output; and a
relocation is hidden exactly when it is the trailing half of a known
two-part relocation — a `GENERIC_RELOC_PAIR` on the generic-relocation
Mach-O architectures, or an `X86_64_RELOC_UNSIGNED` immediately following
an `X86_64_RELOC_SUBTRACTOR` on Mach-O x86_64 — and never for other
container formats. -/
theorem claim10_relocation_interleaving (sectionAddr bound : Nat)
    (rels : List RelocEntry)
    (hsorted : rels.Pairwise (fun a b => a.offset ≤ b.offset)) :
    (printRelocsLoop sectionAddr 0 bound rels).1 =
      rels.filter (fun r => !r.hidden && decide (r.offset < bound)) ∧
    ((printRelocsLoop sectionAddr 0 bound rels).1).Pairwise
      (fun a b => a.offset ≤ b.offset) ∧
    (∀ arch relTypes i, getHidden false arch relTypes i = false) ∧
    (∀ arch relTypes i, (arch = .x86 ∨ arch = .arm ∨ arch = .ppc) →
      (getHidden true arch relTypes i = true ↔
        relTypes.getD i 0 = GENERIC_RELOC_PAIR)) ∧
    (∀ relTypes i, getHidden true .x86_64 relTypes i = true ↔
      (relTypes.getD i 0 = X86_64_RELOC_UNSIGNED ∧ 0 < i ∧
        relTypes.getD (i - 1) 0 = X86_64_RELOC_SUBTRACTOR)) ∧
    (∀ relTypes i, getHidden true .otherArch relTypes i = false) := by
  refine ⟨printRelocsLoop_printed sectionAddr bound rels hsorted, ?_,
    ?_, ?_, ?_, ?_⟩
  · rw [printRelocsLoop_printed sectionAddr bound rels hsorted]
    exact hsorted.filter _
  · intro arch relTypes i
    simp [getHidden]
  · intro arch relTypes i harch
    rcases harch with h | h | h <;> subst h <;> simp [getHidden]
  · intro relTypes i
    simp only [getHidden, Bool.not_true, Bool.false_eq_true, if_false]
    by_cases hi : 0 < i
    · by_cases ht : relTypes.getD i 0 = X86_64_RELOC_UNSIGNED
      · simp [ht, hi]
      · simp [ht, hi]
    · simp [hi]
  · intro relTypes i
    simp [getHidden]

/-- Witness for C10 at a concrete relocation list: a hidden relocation at
offset 1 is consumed silently, offsets 0 and 2 print, offset 5 stays
pending for a bound of 4. -/
theorem claim10_relocation_interleaving_witness :
    (printRelocsLoop 0 0 4
        [⟨0, false⟩, ⟨1, true⟩, ⟨2, false⟩, ⟨5, false⟩]).1 =
      [⟨0, false⟩, ⟨1, true⟩, ⟨2, false⟩, ⟨5, false⟩].filter
        (fun r => !r.hidden && decide (r.offset < 4)) ∧
    ((printRelocsLoop 0 0 4
        [⟨0, false⟩, ⟨1, true⟩, ⟨2, false⟩, ⟨5, false⟩]).1).Pairwise
      (fun a b => a.offset ≤ b.offset) ∧
    (∀ arch relTypes i, getHidden false arch relTypes i = false) ∧
    (∀ arch relTypes i, (arch = .x86 ∨ arch = .arm ∨ arch = .ppc) →
      (getHidden true arch relTypes i = true ↔
        relTypes.getD i 0 = GENERIC_RELOC_PAIR)) ∧
    (∀ relTypes i, getHidden true .x86_64 relTypes i = true ↔
      (relTypes.getD i 0 = X86_64_RELOC_UNSIGNED ∧ 0 < i ∧
        relTypes.getD (i - 1) 0 = X86_64_RELOC_SUBTRACTOR)) ∧
    (∀ relTypes i, getHidden true .otherArch relTypes i = false) :=
  claim10_relocation_interleaving 0 4
    [⟨0, false⟩, ⟨1, true⟩, ⟨2, false⟩, ⟨5, false⟩] (by decide)

theorem driverStep_progress (c : DriverCtx) (index : Nat)
    (rels : List RelocEntry) : index < (driverStep c index rels).2.1 := by
  simp only [driverStep, dumpARMELFDataSize]
  repeat' split
  all_goals simp
  all_goals omega

theorem driverIters_le (c : DriverCtx) (index : Nat)
    (rels : List RelocEntry) :
    driverIters c index rels ≤ c.endIdx - index := by
  generalize hk : c.endIdx - index = k
  induction k using Nat.strong_induction_on generalizing index rels with
  | _ k ih =>
    by_cases h : index < c.endIdx
    · rw [driverIters, dif_pos h]
      have hprog := driverStep_progress c index rels
      have hlt : c.endIdx - (driverStep c index rels).2.1 < k := by omega
      have hb := ih _ hlt (driverStep c index rels).2.1
        (driverStep c index rels).2.2 rfl
      omega
    · rw [driverIters, dif_neg h]
      omega

/-- C4: for every input byte sequence and every symbol range, each
iteration of the instruction loop strictly increases `Index` — by the
number of zero bytes skipped, by `max(decodedSize, 1)` (so a decode
failure reporting size 0 still advances a byte), or, in an ARM ELF data
region, by the data unit dumped — so the loop over `[Start, End)`
terminates in at most `End - Start` iterations. -/
theorem claim4_forward_progress (c : DriverCtx) (index : Nat)
    (rels : List RelocEntry) (h : index < c.endIdx) :
    index < (driverStep c index rels).2.1 ∧
    ((driverStep c index rels).2.1 =
        index + driverSkipCount c.bytes c.endIdx index
          ((rels.head?).map (fun r => r.offset)) ∨
      (driverStep c index rels).2.1 = index + max (c.decode index).2 1 ∨
      (c.isDataMapping index = true ∧
        (driverStep c index rels).2.1 =
          index + dumpARMELFDataSize c.endIdx index)) ∧
    driverIters c index rels ≤ c.endIdx - index := by
  refine ⟨driverStep_progress c index rels, ?_, driverIters_le c index rels⟩
  simp only [driverStep]
  by_cases hdm : c.isDataMapping index = true
  · rw [if_pos hdm]
    exact Or.inr (Or.inr ⟨hdm, rfl⟩)
  · rw [if_neg hdm]
    by_cases hdz : c.disassembleZeroes = true
    · rw [if_pos hdz]
      rw [if_neg (by omega : ¬ (0 : Nat) ≠ 0)]
      exact Or.inr (Or.inl rfl)
    · rw [if_neg hdz]
      by_cases hn : driverSkipCount c.bytes c.endIdx index
          ((rels.head?).map (fun r => r.offset)) = 0
      · rw [hn, if_neg (by omega : ¬ (0 : Nat) ≠ 0)]
        exact Or.inr (Or.inl rfl)
      · rw [if_pos hn]
        exact Or.inl rfl

/-- Witness for C4 at a concrete context. -/
theorem claim4_forward_progress_witness :
    0 < (driverStep (failingCtx 0) 0 []).2.1 ∧
    ((driverStep (failingCtx 0) 0 []).2.1 =
        0 + driverSkipCount (failingCtx 0).bytes (failingCtx 0).endIdx 0
          ((([] : List RelocEntry).head?).map (fun r => r.offset)) ∨
      (driverStep (failingCtx 0) 0 []).2.1 =
        0 + max ((failingCtx 0).decode 0).2 1 ∨
      ((failingCtx 0).isDataMapping 0 = true ∧
        (driverStep (failingCtx 0) 0 []).2.1 =
          0 + dumpARMELFDataSize (failingCtx 0).endIdx 0)) ∧
    driverIters (failingCtx 0) 0 [] ≤ (failingCtx 0).endIdx - 0 :=
  claim4_forward_progress (failingCtx 0) 0 [] (by decide)

theorem driverRun_failing_zero :
    driverRun (failingCtx 0) 0 [] =
      [OutLine.unknownLine 0, OutLine.unknownLine 1,
       OutLine.unknownLine 2, OutLine.unknownLine 3] := by
  rw [driverRun]
  rw [driverRun]
  rw [driverRun]
  rw [driverRun]
  rw [driverRun]
  simp [failingCtx, driverStep, driverSkipCount, countSkippableZeroBytes,
    leadingZeroBytes, skipMaxOffset, lookupLabel, printRelocsLoop]

theorem driverRun_failing_two :
    driverRun (failingCtx 2) 0 [] =
      [OutLine.unknownLine 0, OutLine.unknownLine 2] := by
  rw [driverRun]
  rw [driverRun]
  rw [driverRun]
  simp [failingCtx, driverStep, driverSkipCount, countSkippableZeroBytes,
    leadingZeroBytes, skipMaxOffset, lookupLabel, printRelocsLoop]

/-- C8 counterexample: with a decoder that reports size 2 on failure, the
driver advances 2 bytes (not exactly 1) per failed position, and the
4-byte undecodable range produces 2 placeholder lines, not 4. -/
theorem claim8_counterexample_failure_advance :
    (driverStep (failingCtx 2) 0 []).2.1 = 2 ∧
    (driverStep (failingCtx 2) 0 []).2.1 ≠ 0 + 1 ∧
    driverRun (failingCtx 2) 0 [] =
      [OutLine.unknownLine 0, OutLine.unknownLine 2] ∧
    (driverRun (failingCtx 2) 0 []).length ≠ 4 := by
  refine ⟨?_, ?_, driverRun_failing_two, ?_⟩
  · simp [failingCtx, driverStep, driverSkipCount, countSkippableZeroBytes,
      leadingZeroBytes, skipMaxOffset, lookupLabel, printRelocsLoop]
  · simp [failingCtx, driverStep, driverSkipCount, countSkippableZeroBytes,
      leadingZeroBytes, skipMaxOffset, lookupLabel, printRelocsLoop]
  · rw [driverRun_failing_two]
    decide

/-- C8 (amended): a decode failure is never fatal: at each position where
the decoder fails to produce an instruction the driver prints exactly one
placeholder line and advances `Index` by `max(reportedSize, 1)` —
exactly 1 byte when the failure reports size 0 — and continues; in
particular a 4-byte symbol range undecodable with the decoder reporting
size 0 produces 4 placeholder lines, not 1. -/
theorem claim8_decode_failure (c : DriverCtx) (index : Nat)
    (rels : List RelocEntry) (sz : Nat)
    (hdm : c.isDataMapping index = false)
    (hskip : (if c.disassembleZeroes then 0
      else driverSkipCount c.bytes c.endIdx index
        ((rels.head?).map (fun r => r.offset))) = 0)
    (hdec : c.decode index = (false, sz)) :
    (driverStep c index rels).1.count
        (OutLine.unknownLine (c.sectionAddr + index)) = 1 ∧
    (driverStep c index rels).2.1 = index + max sz 1 ∧
    (sz = 0 → (driverStep c index rels).2.1 = index + 1) ∧
    driverRun (failingCtx 0) 0 [] =
      [OutLine.unknownLine 0, OutLine.unknownLine 1,
       OutLine.unknownLine 2, OutLine.unknownLine 3] := by
  have hstep : driverStep c index rels =
      ((match lookupLabel c.labels (c.sectionAddr + index) with
        | some l => [OutLine.localLabelLine l]
        | none => []) ++
        OutLine.unknownLine (c.sectionAddr + index) ::
          (printRelocsLoop c.sectionAddr c.startAddress
            (index + max sz 1) rels).1.map
            (fun r => OutLine.relocLine r.offset),
       index + max sz 1,
       (printRelocsLoop c.sectionAddr c.startAddress
         (index + max sz 1) rels).2) := by
    simp only [driverStep, hdm, Bool.false_eq_true, if_false, hskip,
      ne_eq, not_true_eq_false, if_false, hdec]
  refine ⟨?_, ?_, ?_, driverRun_failing_zero⟩
  · rw [hstep]
    rw [List.count_append]
    have h1 : (match lookupLabel c.labels (c.sectionAddr + index) with
        | some l => [OutLine.localLabelLine l]
        | none => []).count
          (OutLine.unknownLine (c.sectionAddr + index)) = 0 := by
      cases lookupLabel c.labels (c.sectionAddr + index) with
      | none => rfl
      | some l => rfl
    have h2 : ((printRelocsLoop c.sectionAddr c.startAddress
        (index + max sz 1) rels).1.map
          (fun r => OutLine.relocLine r.offset)).count
          (OutLine.unknownLine (c.sectionAddr + index)) = 0 := by
      rw [List.count_eq_zero]
      intro hmem
      rcases List.mem_map.mp hmem with ⟨r, _, hr⟩
      exact OutLine.noConfusion hr
    rw [List.count_cons]
    simp [h1, h2]
  · rw [hstep]
  · intro hsz
    rw [hstep]
    simp [hsz]

/-- Witness for C8 at the concrete failing context. -/
theorem claim8_decode_failure_witness :
    (driverStep (failingCtx 0) 0 []).1.count
        (OutLine.unknownLine ((failingCtx 0).sectionAddr + 0)) = 1 ∧
    (driverStep (failingCtx 0) 0 []).2.1 = 0 + max 0 1 ∧
    ((0 : Nat) = 0 → (driverStep (failingCtx 0) 0 []).2.1 = 0 + 1) ∧
    driverRun (failingCtx 0) 0 [] =
      [OutLine.unknownLine 0, OutLine.unknownLine 1,
       OutLine.unknownLine 2, OutLine.unknownLine 3] :=
  claim8_decode_failure (failingCtx 0) 0 [] 0 rfl (by decide) rfl

theorem findFirstFree_some_free (cols : List Column) (i : Nat)
    (h : findFirstFree cols = some i) :
    ∃ c, cols[i]? = some c ∧ c.varIdx = none := by
  induction cols generalizing i with
  | nil => simp [findFirstFree] at h
  | cons c rest ih =>
    simp only [findFirstFree] at h
    by_cases hc : c.varIdx = none
    · rw [if_pos hc] at h
      cases h
      exact ⟨c, by simp, hc⟩
    · rw [if_neg hc] at h
      cases hff : findFirstFree rest with
      | none =>
        rw [hff] at h
        exact Option.noConfusion h
      | some j =>
        rw [hff] at h
        have h2 : j + 1 = i := by injection h
        subst h2
        rcases ih j hff with ⟨c2, hc2, hv⟩
        exact ⟨c2, by simpa [List.getElem?_cons_succ] using hc2, hv⟩

theorem findFirstFree_min (cols : List Column) (i : Nat)
    (h : findFirstFree cols = some i) :
    ∀ j, j < i → ∀ c, cols[j]? = some c → c.varIdx ≠ none := by
  induction cols generalizing i with
  | nil => simp [findFirstFree] at h
  | cons c rest ih =>
    simp only [findFirstFree] at h
    by_cases hc : c.varIdx = none
    · rw [if_pos hc] at h
      cases h
      intro j hj
      omega
    · rw [if_neg hc] at h
      cases hff : findFirstFree rest with
      | none =>
        rw [hff] at h
        exact Option.noConfusion h
      | some k =>
        rw [hff] at h
        have h2 : k + 1 = i := by injection h
        subst h2
        intro j hj c2 hc2
        cases j with
        | zero =>
          simp only [List.getElem?_cons_zero, Option.some.injEq] at hc2
          subst hc2
          exact hc
        | succ j2 =>
          simp only [List.getElem?_cons_succ] at hc2
          exact ih k hff j2 (by omega) c2 hc2

theorem findFirstFree_none (cols : List Column)
    (h : findFirstFree cols = none) :
    ∀ c ∈ cols, c.varIdx ≠ none := by
  induction cols with
  | nil => intro c hc; simp at hc
  | cons c rest ih =>
    simp only [findFirstFree] at h
    by_cases hc : c.varIdx = none
    · rw [if_pos hc] at h
      simp at h
    · rw [if_neg hc] at h
      intro c2 hc2
      rcases List.mem_cons.mp hc2 with heq | hmem
      · subst heq
        exact hc
      · exact ih (Option.map_eq_none.mp h) c2 hmem

theorem findFreeColumn_free (cols : List Column) :
    ∃ c, ((findFreeColumn cols).1)[(findFreeColumn cols).2]? = some c ∧
      c.varIdx = none := by
  cases hff : findFirstFree cols with
  | some i =>
    simp only [findFreeColumn, hff]
    exact findFirstFree_some_free cols i hff
  | none =>
    simp only [findFreeColumn, hff]
    refine ⟨defaultColumn, ?_, rfl⟩
    rw [List.getElem?_append]
    rw [if_neg (by omega)]
    rw [Nat.sub_self]
    rw [List.getElem?_replicate]
    rw [if_pos (by omega)]

theorem findFreeColumn_min (cols : List Column) :
    ∀ j, j < (findFreeColumn cols).2 → ∀ c, cols[j]? = some c →
      c.varIdx ≠ none := by
  cases hff : findFirstFree cols with
  | some i =>
    simp only [findFreeColumn, hff]
    intro j hj c hc
    exact findFirstFree_min cols i hff j hj c hc
  | none =>
    simp only [findFreeColumn, hff]
    intro j hj c hc
    rcases List.getElem?_eq_some.mp hc with ⟨hlt, heq⟩
    exact findFirstFree_none cols hff c (heq ▸ List.getElem_mem hlt)

theorem findFreeColumn_preserves (cols : List Column) (j : Nat) (c : Column)
    (hc : cols[j]? = some c) : ((findFreeColumn cols).1)[j]? = some c := by
  cases hff : findFirstFree cols with
  | some i =>
    simp only [findFreeColumn, hff]
    exact hc
  | none =>
    simp only [findFreeColumn, hff]
    have hj : j < cols.length := (List.getElem?_eq_some.mp hc).1
    rw [List.getElem?_append, if_pos hj]
    exact hc

theorem pass2Assign_preserves (lvs : List LiveVariable)
    (thisAddr nextAddr : SectionedAddress) (checked : List Nat)
    (vs : List Nat) :
    ∀ (cols : List Column) (i : Nat) (col : Column) (v : Nat),
      cols[i]? = some col → col.varIdx = some v →
      (pass2Assign lvs thisAddr nextAddr checked vs cols)[i]? = some col := by
  induction vs with
  | nil =>
    intro cols i col v hcol hv
    simpa [pass2Assign] using hcol
  | cons w vs ih =>
    intro cols i col v hcol hv
    simp only [pass2Assign]
    split
    · exact ih cols i col v hcol hv
    · split
      · exact ih cols i col v hcol hv
      · apply ih _ i col v ?_ hv
        have hne : (findFreeColumn cols).2 ≠ i := by
          intro heq
          rcases findFreeColumn_free cols with ⟨c2, hc2, hfree⟩
          rw [heq] at hc2
          have := findFreeColumn_preserves cols i col hcol
          rw [this] at hc2
          cases hc2
          rw [hv] at hfree
          cases hfree
        rw [List.getElem?_set_ne hne]
        exact findFreeColumn_preserves cols i col hcol

theorem update_preserves_column (st : LVPState)
    (thisAddr nextAddr : SectionedAddress) (inc : Bool) (i : Nat)
    (col : Column) (v : Nat) (hcol : st.activeCols[i]? = some col)
    (hv : col.varIdx = some v)
    (hlive :
      liveAtAddress (st.liveVariables.getD v ⟨"", none⟩) thisAddr = true ∨
      liveAtAddress (st.liveVariables.getD v ⟨"", none⟩) nextAddr = true) :
    ∃ col2, (update st thisAddr nextAddr inc).activeCols[i]? = some col2 ∧
      col2.varIdx = some v := by
  have hcol1 : (pass1Col st.liveVariables thisAddr nextAddr col).varIdx =
      some v := by
    simp only [pass1Col, hv]
    rcases hlive with h | h
    · rw [h]
      simp
    · rw [h]
      simp
  have hpass1 : (st.activeCols.map
      (pass1Col st.liveVariables thisAddr nextAddr))[i]? =
      some (pass1Col st.liveVariables thisAddr nextAddr col) := by
    rw [List.getElem?_map, hcol]
    rfl
  unfold update
  split
  · exact ⟨pass1Col st.liveVariables thisAddr nextAddr col,
      pass2Assign_preserves st.liveVariables thisAddr nextAddr
        (checkedVarIdxs st.activeCols)
        (List.range st.liveVariables.length) _ i _ v hpass1 hcol1, hcol1⟩
  · exact ⟨pass1Col st.liveVariables thisAddr nextAddr col, hpass1, hcol1⟩

theorem update_liveVariables_eq (st : LVPState)
    (thisAddr nextAddr : SectionedAddress) (inc : Bool) :
    (update st thisAddr nextAddr inc).liveVariables = st.liveVariables := by
  unfold update
  split <;> rfl

theorem applyUpdates_preserves (st : LVPState)
    (steps : List (SectionedAddress × SectionedAddress × Bool)) (i : Nat)
    (col : Column) (v : Nat) (hcol : st.activeCols[i]? = some col)
    (hv : col.varIdx = some v)
    (hlive : ∀ p ∈ steps,
      liveAtAddress (st.liveVariables.getD v ⟨"", none⟩) p.1 = true ∨
      liveAtAddress (st.liveVariables.getD v ⟨"", none⟩) p.2.1 = true) :
    ∃ col2, (applyUpdates st steps).activeCols[i]? = some col2 ∧
      col2.varIdx = some v := by
  induction steps generalizing st col with
  | nil => exact ⟨col, hcol, hv⟩
  | cons p rest ih =>
    rcases update_preserves_column st p.1 p.2.1 p.2.2 i col v hcol hv
      (hlive p (List.mem_cons_self p rest)) with ⟨col2, hc2, hv2⟩
    have hlv := update_liveVariables_eq st p.1 p.2.1 p.2.2
    apply ih (update st p.1 p.2.1 p.2.2) col2 hc2 hv2
    intro q hq
    rw [hlv]
    exact hlive q (List.mem_cons_of_mem p hq)

/-- C9: across any sequence of `LiveVariablePrinter::update` calls, a
variable occupying a column keeps that column index for as long as it
stays live at either boundary address of each update (pass 1 never
reassigns such a column); and `findFreeColumn` hands a newly live
variable the lowest-indexed free column — growing the array (by the
spec-modelled doubling, minimum 1) when none is free — while leaving
every existing column's contents in place, so no occupied column is
evicted. -/
theorem claim9_column_invariant :
    (∀ (st : LVPState)
      (steps : List (SectionedAddress × SectionedAddress × Bool))
      (i : Nat) (col : Column) (v : Nat),
      st.activeCols[i]? = some col → col.varIdx = some v →
      (∀ p ∈ steps,
        liveAtAddress (st.liveVariables.getD v ⟨"", none⟩) p.1 = true ∨
        liveAtAddress (st.liveVariables.getD v ⟨"", none⟩) p.2.1 = true) →
      ∃ col2, (applyUpdates st steps).activeCols[i]? = some col2 ∧
        col2.varIdx = some v) ∧
    (∀ cols : List Column,
      (∃ c, ((findFreeColumn cols).1)[(findFreeColumn cols).2]? = some c ∧
        c.varIdx = none) ∧
      (∀ j, j < (findFreeColumn cols).2 → ∀ c, cols[j]? = some c →
        c.varIdx ≠ none) ∧
      (∀ (j : Nat) (c : Column), cols[j]? = some c →
        ((findFreeColumn cols).1)[j]? = some c) ∧
      ((findFreeColumn cols).1.length = cols.length ∨
        (findFreeColumn cols).1.length = max (2 * cols.length) 1)) := by
  refine ⟨applyUpdates_preserves, ?_⟩
  intro cols
  refine ⟨findFreeColumn_free cols, findFreeColumn_min cols, ?_, ?_⟩
  · intro j c hc
    exact findFreeColumn_preserves cols j c hc
  cases hff : findFirstFree cols with
  | some i =>
    simp only [findFreeColumn, hff]
    exact Or.inl trivial
  | none =>
    simp only [findFreeColumn, hff]
    right
    rw [List.length_append, List.length_replicate]
    omega

/-- Witness for C9: the variable `x` (live on `[0, 5)`) holds column 0;
after updates crossing addresses 1-2 and 3-4 — during which `y` (live on
`[3, 4)`) becomes live and dies — column 0 still holds `x`. -/
theorem claim9_column_invariant_witness :
    (∃ col2,
      (applyUpdates
        ⟨[⟨"x", some (0, 5, 0)⟩, ⟨"y", some (3, 4, 0)⟩],
         [⟨some 0, true, true, false⟩]⟩
        [(⟨1, 0⟩, ⟨2, 0⟩, true), (⟨3, 0⟩, ⟨4, 0⟩, true)]).activeCols[0]? =
          some col2 ∧
      col2.varIdx = some 0) ∧
    (∃ c, ((findFreeColumn [⟨some 0, true, true, false⟩]).1)[
        (findFreeColumn [⟨some 0, true, true, false⟩]).2]? = some c ∧
      c.varIdx = none) :=
  ⟨claim9_column_invariant.1
      ⟨[⟨"x", some (0, 5, 0)⟩, ⟨"y", some (3, 4, 0)⟩],
       [⟨some 0, true, true, false⟩]⟩
      [(⟨1, 0⟩, ⟨2, 0⟩, true), (⟨3, 0⟩, ⟨4, 0⟩, true)]
      0 ⟨some 0, true, true, false⟩ 0 rfl rfl (by decide),
    (claim9_column_invariant.2 [⟨some 0, true, true, false⟩]).1⟩

end Objdump
